import Mathlib

/-!
Shallow embedding of the halley networking layer
(src/halley/net/src/udp_connection.cpp and
src/halley/net/src/reliable_connection.cpp) and verification of its
specified properties.

Modelling conventions:
* Bytes are `Nat` values in 0..255 (the signed `char` value `-1` is the
  byte `0xFF = 255`).
* 16-bit unsigned arithmetic is `Nat` with explicit `% 65536`; theorems
  carry `< 65536` hypotheses for values whose C++ type is
  `unsigned short`.
* The monotonic clock and `float` quantities (timestamps, the RTT
  estimate `lag`) are idealized as `ℚ`; the current time is passed as an
  explicit parameter where the source calls `Clock::now()`.
* Ring buffers (`receivedSeqs`, `sentPackets`) are total functions
  `Nat → _`, indexed exactly as the source indexes them
  (always through `% BUFFER_SIZE`).
* `parent->close()` / socket closure is modelled by a `closed` flag.
* ACK-listener notification is modelled by appending the tag to a
  `notifications` log: every registered listener observes exactly this
  sequence of `onPacketAcked` calls.
* The state fields (`sequenceSent`, `highestReceived`, ...) follow the
  class declarations, which are not part of the sources at hand; their
  names and widths are taken from the specification's data model.
-/

namespace HalleyNet
def BUFFER_SIZE : Nat := 1024

/-- Connection states `Connecting → Open → Closing → Closed`
(enum `ConnectionStatus` of the headers; states per the spec). -/
inductive ConnectionStatus where
  | CONNECTING
  | OPEN
  | CLOSING
  | CLOSED
deriving DecidableEq

/-- State of a `UDPConnection` (udp_connection.cpp).  `pendingSend` and
`pendingReceive` are the packet queues; datagrams handed to the socket
are returned by the operations rather than stored. -/
structure UdpState where
  status : ConnectionStatus
  connectionId : Int
  pendingSend : List (List Nat)
  pendingReceive : List (List Nat)
  error : String
deriving DecidableEq

/-- The 12 bytes of `HandshakeAccept::handshake`: the string
`"halley_accp"` (11 characters) plus its terminating NUL. -/
def handshakeMagic : List Nat :=
  [104, 97, 108, 108, 101, 121, 95, 97, 99, 99, 112, 0]

/-- `HandshakeAccept::id` of a freshly constructed `HandshakeAccept`
(member initializer `short id = -1;`). -/
def handshakeAcceptDefaultId : Int := -1

/-- `UDPConnection::onOpen(short id)`: record the id, go to `OPEN`. -/
def UDPConnection.onOpen (st : UdpState) (id : Int) : UdpState :=
  { st with connectionId := id, status := ConnectionStatus.OPEN }

/-- `UDPConnection::onReceive(span data)` (lines 81-98).  In
`CONNECTING` state: a datagram of exactly `sizeof(HandshakeAccept)` = 14
bytes whose first 12 bytes `memcmp`-match the magic triggers
`onOpen(accept.id)` — where `accept` is the freshly constructed *local*
struct, so the id passed is its default `-1`.  In `OPEN` state,
datagrams of at most 1500 bytes are queued.  (The entry assertion
`Expects(data.size() <= 1500)` is a precondition carried by theorems.) -/
def UDPConnection.onReceive (st : UdpState) (data : List Nat) : UdpState :=
  if st.status = ConnectionStatus.CONNECTING then
    if data.length = 14 ∧ data.take 12 = handshakeMagic then
      UDPConnection.onOpen st handshakeAcceptDefaultId
    else st
  else if st.status = ConnectionStatus.OPEN then
    if data.length ≤ 1500 then
      { st with pendingReceive := st.pendingReceive ++ [data] }
    else st
  else st

/-- Modelled from the spec: the 16-bit id carried in a handshake
datagram — bytes 12 and 13, little-endian, interpreted as a signed
16-bit value.  (Used only to state what the spec calls "the supplied
id"; the source never reads these bytes.) -/
def handshakeSuppliedId (data : List Nat) : Int :=
  let v := data.getD 12 0 + 256 * data.getD 13 0
  if v < 32768 then (v : Int) else (v : Int) - 65536

/-- `UDPConnection::sendNext()` (lines 124-148): pop the front pending
packet and hand it to the socket.  Only the initiation is modelled; the
asynchronous completion callback is real-time behaviour outside the
embedding. -/
def UDPConnection.sendNext (st : UdpState) : UdpState × List (List Nat) :=
  match st.pendingSend with
  | [] => (st, [])
  | p :: rest => ({ st with pendingSend := rest }, [p])

/-- `UDPConnection::send(packet)` (lines 50-63): in `OPEN` or
`CONNECTING` state, prepend the single header byte `{ -1 }` (byte
`0xFF`), queue the packet, and start a send if the queue was empty.
In any other state the call does nothing. -/
def UDPConnection.send (st : UdpState) (packet : List Nat) :
    UdpState × List (List Nat) :=
  if st.status = ConnectionStatus.OPEN ∨ st.status = ConnectionStatus.CONNECTING then
    let packet2 := 255 :: packet
    let needsSend := st.pendingSend.isEmpty
    let st2 := { st with pendingSend := st.pendingSend ++ [packet2] }
    if needsSend then UDPConnection.sendNext st2 else (st2, [])
  else (st, [])

/-- A connecting endpoint, as freshly constructed
(`status = CONNECTING`, `connectionId = -1`). -/
def stC1 : UdpState :=
  { status := ConnectionStatus.CONNECTING, connectionId := -1,
    pendingSend := [], pendingReceive := [], error := "" }

/-- A handshake datagram carrying the assigned id 5:
the magic followed by the little-endian bytes of `(short) 5`. -/
def c1Data : List Nat := handshakeMagic ++ [5, 0]

/-- An open endpoint whose handshake assigned connection id 5. -/
def stC4 : UdpState :=
  { status := ConnectionStatus.OPEN, connectionId := 5,
    pendingSend := [], pendingReceive := [], error := "" }

/-- A closed endpoint with a non-empty send queue. -/
def stC10 : UdpState :=
  { status := ConnectionStatus.CLOSED, connectionId := 3,
    pendingSend := [[9]], pendingReceive := [], error := "" }

/-- A `SentPacketData` slot of the sent-packet ring. -/
structure SentPacketData where
  waiting : Bool
  tag : Int
  timestamp : ℚ

/-- State of a `ReliableConnection` (reliable_connection.cpp).
`notifications` logs the tags passed to the listeners'
`onPacketAcked`; `closed` models `parent->close()`. -/
structure ReliableState where
  sequenceSent : Nat
  highestReceived : Nat
  receivedSeqs : Nat → Nat
  sentPackets : Nat → SentPacketData
  lag : ℚ
  lastSend : ℚ
  notifications : List Int
  closed : Bool

/-- The sub-header bytes `ReliableConnection::sendTagged` emits
(lines 55-64): the first `(longSize ? 2 : 1) + (isResend ? 2 : 0)`
bytes of the struct `{sizeA, sizeB, resendLo, resendHi}`, with
`sizeA = (longSize ? (size >> 8) & 0x3F : size) | (isResend ? 0x80 : 0)`
and `sizeB = longSize ? size & 0xFF : 0`.  `sendTagged` itself always
passes `isResend = false`, `resending = 0`. -/
def encodeSubHeader (size : Nat) (isResend : Bool) : List Nat :=
  let longSize := 64 ≤ size
  let sizeA :=
    ((if longSize then (size >>> 8) &&& 0x3F else size % 256) |||
      (if isResend then 0x80 else 0)) % 256
  let sizeB := if longSize then size &&& 0xFF else 0
  List.take ((if longSize then 2 else 1) + (if isResend then 2 else 0))
    [sizeA, sizeB, 0, 0]

/-- Sub-header decoding of `ReliableConnection::processReceivedPacket`
(lines 122-143).  Returns `(resend, size, resendOf, rest)`; `none`
models the thrown truncation exceptions. -/
def decodeSubHeader (packet : List Nat) :
    Option (Bool × Nat × Nat × List Nat) :=
  match packet with
  | [] => none
  | sizeA :: rest =>
    let resend := sizeA &&& 0x80 ≠ 0
    let step1 : Option (Nat × List Nat) :=
      if sizeA &&& 0x40 ≠ 0 then
        match rest with
        | [] => none
        | sizeB :: rest2 => some (((sizeA &&& 0x3F) <<< 8) ||| sizeB, rest2)
      else some (sizeA &&& 0x3F, rest)
    match step1 with
    | none => none
    | some (size, rest2) =>
      if resend then
        match rest2 with
        | lo :: hi :: rest3 => some (true, size, lo ||| (hi <<< 8), rest3)
        | _ => none
      else some (false, size, 0, rest2)

/-- The clearing loop of `ReliableConnection::onSeqReceived`
(lines 192-195): starting from ring index `start`, zero the slot
`(i + BUFFER_SIZE/2) % BUFFER_SIZE` and step `i = (i+1) % BUFFER_SIZE`,
for `k` iterations (`k` is the number of times the C++ loop runs before
`i` reaches `bufferPos`). -/
def clearSlots : (Nat → Nat) → Nat → Nat → (Nat → Nat)
  | recv, _, 0 => recv
  | recv, start, k + 1 =>
    clearSlots (Function.update recv ((start + BUFFER_SIZE / 2) % BUFFER_SIZE) 0)
      ((start + 1) % BUFFER_SIZE) k

/-- The advance block of `ReliableConnection::onSeqReceived`
(lines 191-197): run the clearing loop from
`highestReceived % BUFFER_SIZE` until `seq % BUFFER_SIZE` (exclusive),
then set `highestReceived = seq`.  The iteration count
`(bufferPos + BUFFER_SIZE - start) % BUFFER_SIZE` is exactly the number
of steps the C++ `for` loop takes from `start` to `bufferPos` mod
`BUFFER_SIZE`. -/
def advanceHighestReceived (st : ReliableState) (seq : Nat) : ReliableState :=
  let bufferPos := seq % BUFFER_SIZE
  let start := st.highestReceived % BUFFER_SIZE
  let steps := (bufferPos + BUFFER_SIZE - start) % BUFFER_SIZE
  { st with receivedSeqs := clearSlots st.receivedSeqs start steps,
            highestReceived := seq }

/-- The duplicate test and marking of `ReliableConnection::onSeqReceived`
(lines 200-211). -/
def markReceived (st : ReliableState) (bufferPos resendPos : Nat)
    (isResend : Bool) : ReliableState × Bool :=
  if st.receivedSeqs bufferPos ≠ 0 ∨
      (isResend = true ∧ st.receivedSeqs resendPos ≠ 0) then
    (st, false)
  else
    let r1 := Function.update st.receivedSeqs bufferPos
      (st.receivedSeqs bufferPos ||| 1)
    let r2 := if isResend then
        Function.update r1 resendPos (r1 resendPos ||| 2)
      else r1
    ({ st with receivedSeqs := r2 }, true)

/-- `ReliableConnection::onSeqReceived(seq, isResend, resendOf)`
(lines 178-212).  `diff = (unsigned short)(seq - highestReceived)`;
if `seq` is strictly ahead, either close (jump beyond
`BUFFER_SIZE - 32`) or advance; then the duplicate test and marking. -/
def onSeqReceived (st : ReliableState) (seq : Nat) (isResend : Bool)
    (resendOf : Nat) : ReliableState × Bool :=
  let bufferPos := seq % BUFFER_SIZE
  let resendPos := resendOf % BUFFER_SIZE
  let diff := (seq + 65536 - st.highestReceived) % 65536
  if diff ≠ 0 ∧ diff < 0x8000 then
    if BUFFER_SIZE - 32 < diff then
      ({ st with closed := true }, false)
    else
      markReceived (advanceHighestReceived st seq) bufferPos resendPos isResend
  else
    markReceived st bufferPos resendPos isResend

/-- Concrete state for the C3 counterexample: `highestReceived = 0`,
ring slots 512 and 513 hold the value 1, everything else clear. -/
def stC3 : ReliableState :=
  { sequenceSent := 0, highestReceived := 0,
    receivedSeqs := fun j => if j = 512 then 1 else if j = 513 then 1 else 0,
    sentPackets := fun _ => { waiting := false, tag := -1, timestamp := 0 },
    lag := 0, lastSend := 0, notifications := [], closed := false }

/-- A freshly constructed reliable channel state: nothing received,
nothing waiting, no notifications. -/
def freshReliable : ReliableState :=
  { sequenceSent := 0, highestReceived := 0,
    receivedSeqs := fun _ => 0,
    sentPackets := fun _ => { waiting := false, tag := -1, timestamp := 0 },
    lag := 0, lastSend := 0, notifications := [], closed := false }

/-- State for the C8 witness: fresh channel with
`highestReceived = 100` (spec Scenario E). -/
def stC8 : ReliableState := { freshReliable with highestReceived := 100 }

/-- State for the C6 witness: `highestReceived = 100` with the slot for
sequence 100 already marked received. -/
def stC6 : ReliableState :=
  { freshReliable with
    highestReceived := 100,
    receivedSeqs := Function.update (fun _ => 0) 100 1 }

/-- The accumulator of `ReliableConnection::generateAckBits`
(lines 229-239) after `k` loop iterations:
`result |= (1 & receivedSeqs[((highestReceived - 1 - i) + 0x10000) % BUFFER_SIZE]) << i`
for `i = 0 .. k-1`.  (For `highestReceived < 2^16` and `i ≤ 31` the C++
`size_t` expression equals `(highestReceived + 0x10000 - 1 - i) % BUFFER_SIZE`.) -/
def ackBitsAux (st : ReliableState) : Nat → Nat
  | 0 => 0
  | i + 1 => ackBitsAux st i |||
      ((1 &&& st.receivedSeqs ((st.highestReceived + 0x10000 - 1 - i) % BUFFER_SIZE)) <<< i)

/-- `ReliableConnection::generateAckBits()`: the loop runs `i = 0 .. 31`. -/
def generateAckBits (st : ReliableState) : Nat := ackBitsAux st 32

/-- State for the C7 witness: `highestReceived = 5` with only sequence 4
received (slot 4 marked). -/
def stC7 : ReliableState :=
  { freshReliable with
    highestReceived := 5,
    receivedSeqs := Function.update (fun _ => 0) 4 1 }

/-- `ReliableConnection::reportLatency(lastMeasuredLag)` (lines 241-248):
first sample is taken verbatim, later samples feed an EMA with
`lerp(lag, x, 0.2)`.  (`float` idealized as `ℚ`.) -/
def reportLatency (st : ReliableState) (lastMeasuredLag : ℚ) : ReliableState :=
  if |st.lag| < 1 / 100000 then { st with lag := lastMeasuredLag }
  else { st with lag := st.lag + (lastMeasuredLag - st.lag) * (1 / 5) }

/-- `ReliableConnection::onAckReceived(sequence)` (lines 214-227): if the
sent slot is waiting, clear it, notify listeners when `tag != -1`, and
feed `now - timestamp` to the latency estimator. -/
def onAckReceived (st : ReliableState) (now : ℚ) (sequence : Nat) : ReliableState :=
  let idx := sequence % BUFFER_SIZE
  let data := st.sentPackets idx
  if data.waiting = true then
    let st1 := { st with
      sentPackets := Function.update st.sentPackets idx
        { data with waiting := false } }
    let st2 := if data.tag ≠ -1 then
        { st1 with notifications := st1.notifications ++ [data.tag] }
      else st1
    reportLatency st2 (now - data.timestamp)
  else st

/-- The bit loop of `ReliableConnection::processReceivedAcks`
(lines 169-174): `for (int i = 32; --i >= 0;)` — called with counter 32,
it processes `i = 31` down to `i = 0`, acknowledging
`(unsigned short)(ack - (i + 1))` for each set bit. -/
def ackBitsLoop (now : ℚ) (ack ackBits : Nat) : ReliableState → Nat → ReliableState
  | st, 0 => st
  | st, i + 1 =>
    let st2 := if ackBits &&& (1 <<< i) ≠ 0 then
        onAckReceived st now ((ack + 65536 - (i + 1)) % 65536)
      else st
    ackBitsLoop now ack ackBits st2 i

/-- `ReliableConnection::processReceivedAcks(ack, ackBits)`
(lines 161-176): ignore ACKs referring more than 512 sequences back,
otherwise process the 32 ack bits (oldest first) and finally `ack`. -/
def processReceivedAcks (st : ReliableState) (now : ℚ) (ack ackBits : Nat) :
    ReliableState :=
  let diff := (st.sequenceSent + 65536 - ack) % 65536
  if 512 < diff then st
  else onAckReceived (ackBitsLoop now ack ackBits st 32) now ack

/-- The order of `onAckReceived` invocations stated by the spec: for
`i` from 31 down to 0, `ack - (i+1)` when bit `i` is set, then `ack`
itself. -/
def ackSequenceOrder (ack ackBits : Nat) : List Nat :=
  (((List.range 32).reverse).filter (fun i => ackBits &&& (1 <<< i) != 0)).map
    (fun i => (ack + 65536 - (i + 1)) % 65536) ++ [ack]

/-- The state effect of `ReliableConnection::sendTagged(packet, tag)`
(lines 50-80): allocate `seq = sequenceSent++` (16-bit wrap), store
`waiting = true`, the tag and the send time in the sent ring at
`seq % BUFFER_SIZE`, and update `lastSend`.  The emitted wire bytes
(reliable header plus `encodeSubHeader`) do not affect the channel
state.  The source asserts `Expects(tag >= 0)`; theorems carry it as a
hypothesis. -/
def sendTagged (st : ReliableState) (now : ℚ) (tag : Int) : ReliableState :=
  let seq := st.sequenceSent
  let idx := seq % BUFFER_SIZE
  { st with
    sequenceSent := (st.sequenceSent + 1) % 65536,
    sentPackets := Function.update st.sentPackets idx
      { waiting := true, tag := tag, timestamp := now },
    lastSend := now }

/-- A sequence of `sendTagged` calls, each with its tag and send time. -/
def sendAll (st : ReliableState) (sends : List (Int × ℚ)) : ReliableState :=
  sends.foldl (fun s p => sendTagged s p.2 p.1) st

/-- A sequence of `onAckReceived` calls, each with its sequence number
and arrival time (this is how `processReceivedAcks` consumes a lossless
ACK stream, cf. `ackBitsLoop_eq_foldl`). -/
def processAckList (st : ReliableState) (acks : List (Nat × ℚ)) : ReliableState :=
  acks.foldl (fun s a => onAckReceived s a.2 a.1) st

/-- Claim C1: the claim says a `CONNECTING` endpoint that receives a
well-formed handshake datagram transitions to `OPEN` with the id
carried in the datagram.  The code does transition to `OPEN`, but calls
`onOpen(accept.id)` on the id of the freshly constructed local
`HandshakeAccept` — always `-1` — ignoring the supplied id (here 5). -/
theorem c1_handshake_ignores_supplied_id :
    (UDPConnection.onReceive stC1 c1Data).status = ConnectionStatus.OPEN ∧
    handshakeSuppliedId c1Data = 5 ∧
    (UDPConnection.onReceive stC1 c1Data).connectionId = -1 ∧
    ¬ (UDPConnection.onReceive stC1 c1Data).connectionId = handshakeSuppliedId c1Data := by
  refine ⟨rfl, rfl, rfl, ?_⟩
  decide

/-- Claim C10: a `send` while the status is `CLOSING` or `CLOSED` is a
silent no-op: the state (including the pending-send queue) is unchanged
and no datagram is handed to the socket. -/
theorem c10_send_noop_when_closing_or_closed (st : UdpState) (p : List Nat)
    (h : st.status = ConnectionStatus.CLOSING ∨ st.status = ConnectionStatus.CLOSED) :
    UDPConnection.send st p = (st, []) := by
  have hne : ¬ (st.status = ConnectionStatus.OPEN ∨ st.status = ConnectionStatus.CONNECTING) := by
    rcases h with h | h <;> rw [h] <;> decide
  simp [UDPConnection.send, hne]

/-- Witness for C10 at a concrete closed state and packet. -/
theorem c10_witness :
    (stC10.status = ConnectionStatus.CLOSING ∨ stC10.status = ConnectionStatus.CLOSED) ∧
    UDPConnection.send stC10 [1, 2] = (stC10, []) :=
  ⟨Or.inr rfl, c10_send_noop_when_closing_or_closed stC10 [1, 2] (Or.inr rfl)⟩

/-- Claim C4 counterexample: an `OPEN` connection with assigned id 5
sends a packet; the claim says the prepended byte equals the connection
id (5), but the code prepends the constant byte `{ -1 }` (`0xFF`). -/
theorem c4_counterexample :
    stC4.status = ConnectionStatus.OPEN ∧
    stC4.connectionId = 5 ∧
    (UDPConnection.send stC4 [7]).2 = [[255, 7]] ∧
    ¬ (UDPConnection.send stC4 [7]).2 = [[5, 7]] := by
  refine ⟨rfl, rfl, rfl, ?_⟩
  decide

/-- Claim C4 (amended): in `OPEN` or `CONNECTING` state, `send` always
prepends the constant byte `-1` (`0xFF`) — the assigned connection id is
never written into the outbound datagram. -/
theorem c4_send_prepends_minus_one (st : UdpState) (p : List Nat)
    (h : st.status = ConnectionStatus.OPEN ∨ st.status = ConnectionStatus.CONNECTING) :
    (st.pendingSend = [] → UDPConnection.send st p = (st, [255 :: p])) ∧
    (st.pendingSend ≠ [] →
      UDPConnection.send st p = ({ st with pendingSend := st.pendingSend ++ [255 :: p] }, [])) := by
  constructor
  · intro he
    have : { st with pendingSend := ([] : List (List Nat)) } = st := by
      rw [← he]
    simp [UDPConnection.send, h, he, UDPConnection.sendNext, this]
  · intro hne
    have : ¬ st.pendingSend.isEmpty := by
      simpa [List.isEmpty_iff] using hne
    simp [UDPConnection.send, h, this]

/-- Witness for C4 (amended) at a concrete open state. -/
theorem c4_witness :
    (stC4.status = ConnectionStatus.OPEN ∨ stC4.status = ConnectionStatus.CONNECTING) ∧
    ((stC4.pendingSend = [] → UDPConnection.send stC4 [7] = (stC4, [255 :: [7]])) ∧
     (stC4.pendingSend ≠ [] →
       UDPConnection.send stC4 [7] = ({ stC4 with pendingSend := stC4.pendingSend ++ [255 :: [7]] }, []))) :=
  ⟨Or.inl rfl, c4_send_prepends_minus_one stC4 [7] (Or.inl rfl)⟩

/-- Claim C2: the claim says that for a payload of size ≥ 64 the first
sub-header byte carries the long-size bit `0x40` and decoding
round-trips.  At size 64 the encoder emits `[0x00, 0x40]` — bit `0x40`
of the first byte is clear (the encoder never sets it) — and the
decoder in the same file then reads a short size of 0, so the
round-trip fails. -/
theorem c2_long_size_bit_never_set :
    encodeSubHeader 64 false = [0, 64] ∧
    (encodeSubHeader 64 false).headD 0 &&& 0x40 = 0 ∧
    decodeSubHeader (encodeSubHeader 64 false) = some (false, 0, 0, [64]) ∧
    ¬ decodeSubHeader (encodeSubHeader 64 false) = some (false, 64, 0, []) := by
  refine ⟨rfl, rfl, rfl, ?_⟩
  decide

/-- 1025 `sendTagged` calls — one more than the sent ring's capacity —
with distinct tags 0..1024. -/
def sends1025 : List (Int × ℚ) :=
  (List.range 1025).map (fun (k : Nat) => ((k : Int), (0 : ℚ)))

/-- A lossless acknowledgement stream covering each of the 1025 sent
sequences 0..1024 exactly once, in order. -/
def acks1025 : List (Nat × ℚ) := (List.range 1025).map (fun k => (k, (0 : ℚ)))

/-- The number of sent-ring slots currently waiting for an ACK (the
ring has `BUFFER_SIZE = 1024` slots, indexed by `seq % BUFFER_SIZE`). -/
def waitingCount (st : ReliableState) : Nat :=
  ((Finset.range 1024).filter (fun j => (st.sentPackets j).waiting = true)).card

theorem BUFFER_SIZE_half : BUFFER_SIZE / 2 = 512 := rfl

theorem BUFFER_SIZE_sub32 : BUFFER_SIZE - 32 = 992 := rfl

theorem BUFFER_SIZE_eq : BUFFER_SIZE = 1024 := rfl

/-- Pointwise characterization of the clearing loop: after `k` steps
from `start`, exactly the slots `(start + 512 + m) % 1024` for `m < k`
are zero, and every other slot is untouched. -/
theorem clearSlots_apply (k : Nat) : ∀ (recv : Nat → Nat) (start j : Nat),
    clearSlots recv start k j =
      if ∃ m, m < k ∧ j = (start + 512 + m) % 1024 then 0 else recv j := by
  induction k with
  | zero =>
    intro recv start j
    simp [clearSlots]
  | succ k ih =>
    intro recv start j
    rw [clearSlots, ih]
    simp only [BUFFER_SIZE_half, BUFFER_SIZE_eq]
    by_cases h0 : ∃ m, m < k ∧ j = ((start + 1) % 1024 + 512 + m) % 1024
    · rw [if_pos h0, if_pos]
      obtain ⟨m, hm, hj⟩ := h0
      exact ⟨m + 1, by omega, by rw [hj]; omega⟩
    · rw [if_neg h0]
      by_cases h1 : j = (start + 512) % 1024
      · rw [if_pos ⟨0, by omega, by rw [h1]⟩, h1, Function.update_same]
      · rw [Function.update_apply, if_neg h1, if_neg]
        intro hc
        obtain ⟨m, hm, hj⟩ := hc
        match m, hm, hj with
        | 0, _, hj => exact h1 (by simpa using hj)
        | m + 1, hm, hj =>
          exact h0 ⟨m, by omega, by rw [hj]; omega⟩

/-- Claim C3 (amended): on every advance (`0 < diff < 0x8000`,
`diff ≤ BUFFER_SIZE - 32`), the advance block of `onSeqReceived` zeroes
exactly the slots `(i + BUFFER_SIZE/2) % BUFFER_SIZE` for ring index
`i` running from `highestReceived` *inclusive* to `seq % BUFFER_SIZE`
*exclusive* (i.e. the slots `(highestReceived + 512 + m) % 1024` for
`m < diff`), then sets `highestReceived = seq`; all other slots keep
their prior value. -/
theorem c3_advance_clears_half_buffer_ahead (st : ReliableState) (seq : Nat)
    (h1 : st.highestReceived < 65536) (h2 : seq < 65536)
    (hpos : 0 < (seq + 65536 - st.highestReceived) % 65536)
    (hlt : (seq + 65536 - st.highestReceived) % 65536 < 0x8000)
    (hle : (seq + 65536 - st.highestReceived) % 65536 ≤ BUFFER_SIZE - 32) :
    (advanceHighestReceived st seq).highestReceived = seq ∧
    (∀ j, (advanceHighestReceived st seq).receivedSeqs j =
      if ∃ m, m < (seq + 65536 - st.highestReceived) % 65536 ∧
          j = (st.highestReceived + 512 + m) % 1024
      then 0 else st.receivedSeqs j) := by
  simp only [BUFFER_SIZE_sub32] at hle
  have hsteps : (seq % BUFFER_SIZE + BUFFER_SIZE - st.highestReceived % BUFFER_SIZE) %
      BUFFER_SIZE = (seq + 65536 - st.highestReceived) % 65536 := by
    simp only [BUFFER_SIZE_eq]
    omega
  refine ⟨rfl, fun j => ?_⟩
  show clearSlots st.receivedSeqs (st.highestReceived % BUFFER_SIZE)
      ((seq % BUFFER_SIZE + BUFFER_SIZE - st.highestReceived % BUFFER_SIZE) % BUFFER_SIZE) j = _
  rw [hsteps, clearSlots_apply]
  congr 1
  refine propext (exists_congr fun m => and_congr_right fun _ => ?_)
  simp only [BUFFER_SIZE_eq]
  constructor
  · intro hj; rw [hj]; omega
  · intro hj; rw [hj]; omega

/-- Claim C3 counterexample: at `highestReceived = 0`, receiving
`seq = 1` (an advance with `diff = 1`).  The claim's range — from
`highestReceived` *exclusive* to `seq % BUFFER_SIZE` *inclusive* —
demands that slot `(1 + 512) % 1024 = 513` be zeroed and slot 512 keep
its prior value 1.  The code's loop runs from `highestReceived`
*inclusive* to `bufferPos` *exclusive*: it zeroes slot 512 and leaves
slot 513 at 1. -/
theorem c3_counterexample :
    ¬ ((onSeqReceived stC3 1 false 0).1.receivedSeqs 513 = 0 ∧
       (onSeqReceived stC3 1 false 0).1.receivedSeqs 512 = stC3.receivedSeqs 512) := by
  decide

/-- Witness for C3 (amended) at `highestReceived = 0`, `seq = 1`. -/
theorem c3_witness :
    (stC3.highestReceived < 65536 ∧ (1 : Nat) < 65536 ∧
     0 < (1 + 65536 - stC3.highestReceived) % 65536 ∧
     (1 + 65536 - stC3.highestReceived) % 65536 < 0x8000 ∧
     (1 + 65536 - stC3.highestReceived) % 65536 ≤ BUFFER_SIZE - 32) ∧
    ((advanceHighestReceived stC3 1).highestReceived = 1 ∧
     (∀ j, (advanceHighestReceived stC3 1).receivedSeqs j =
       if ∃ m, m < (1 + 65536 - stC3.highestReceived) % 65536 ∧
           j = (stC3.highestReceived + 512 + m) % 1024
       then 0 else stC3.receivedSeqs j)) :=
  ⟨⟨by decide, by decide, by decide, by decide, by decide⟩,
   c3_advance_clears_half_buffer_ahead stC3 1 (by decide) (by decide)
     (by decide) (by decide) (by decide)⟩

/-- Claim C6 counterexample: fresh channel (`highestReceived = 0`, all
ring slots zero), receiving `seq = 993`, not a resend.  The slot for
`seq` is zero and the resend flag is clear, so the claim's "otherwise"
branch demands `onSeqReceived` return true and mark the slot; the code
instead takes the window-skip path (`diff = 993 > 992`), closes the
channel and returns false before any duplicate test. -/
theorem c6_counterexample :
    freshReliable.receivedSeqs (993 % 1024) = 0 ∧
    ¬ (onSeqReceived freshReliable 993 false 0).2 = true := by
  exact ⟨rfl, by decide⟩

/-- Claim C6 (amended): for every *non-advancing* call to
`onSeqReceived` (`(seq - highestReceived) mod 2^16` is zero or at least
`0x8000`): if the received-ring slot for `seq` is non-zero, or the
resend flag is set and the slot for `resendOf` is non-zero, the call
returns false and the state is unchanged; otherwise it returns true,
sets bit 0 of the slot for `seq` and, when the resend flag is set,
bit 1 of the slot for `resendOf`, leaving all other slots and
`highestReceived` unchanged. -/
theorem c6_duplicate_suppression (st : ReliableState) (seq resendOf : Nat)
    (isResend : Bool)
    (h1 : st.highestReceived < 65536) (h2 : seq < 65536)
    (hnadv : (seq + 65536 - st.highestReceived) % 65536 = 0 ∨
      0x8000 ≤ (seq + 65536 - st.highestReceived) % 65536) :
    (st.receivedSeqs (seq % 1024) ≠ 0 ∨
        (isResend = true ∧ st.receivedSeqs (resendOf % 1024) ≠ 0) →
      onSeqReceived st seq isResend resendOf = (st, false)) ∧
    (¬ (st.receivedSeqs (seq % 1024) ≠ 0 ∨
        (isResend = true ∧ st.receivedSeqs (resendOf % 1024) ≠ 0)) →
      (onSeqReceived st seq isResend resendOf).2 = true ∧
      (onSeqReceived st seq isResend resendOf).1.highestReceived = st.highestReceived ∧
      (∀ j, (onSeqReceived st seq isResend resendOf).1.receivedSeqs j =
        st.receivedSeqs j |||
          ((if j = seq % 1024 then 1 else 0) |||
           (if isResend = true ∧ j = resendOf % 1024 then 2 else 0)))) := by
  have hcond : ¬ ((seq + 65536 - st.highestReceived) % 65536 ≠ 0 ∧
      (seq + 65536 - st.highestReceived) % 65536 < 0x8000) := by
    rcases hnadv with h | h
    · simp [h]
    · intro hc; omega
  have hB : seq % BUFFER_SIZE = seq % 1024 := rfl
  have hR : resendOf % BUFFER_SIZE = resendOf % 1024 := rfl
  simp only [onSeqReceived, hB, hR]
  rw [if_neg hcond]
  constructor
  · intro hdup
    simp only [markReceived, if_pos hdup]
  · intro hnd
    simp only [markReceived]
    rw [if_neg hnd]
    refine ⟨rfl, rfl, fun j => ?_⟩
    cases isResend with
    | false =>
      by_cases hb : j = seq % 1024
      · subst hb
        simp [Function.update_apply]
      · simp [Function.update_apply, hb]
    | true =>
      by_cases hr : j = resendOf % 1024
      · by_cases hb : j = seq % 1024
        · have hrb : resendOf % 1024 = seq % 1024 := hr ▸ hb
          subst hr
          simp [Function.update_apply, hrb, Nat.lor_assoc]
        · have hrb : ¬ resendOf % 1024 = seq % 1024 := fun h => hb (hr.trans h)
          subst hr
          simp [Function.update_apply, hrb]
      · by_cases hb : j = seq % 1024
        · subst hb
          simp [Function.update_apply, hr]
        · simp [Function.update_apply, hr, hb]

/-- Claim C8: a call to `onSeqReceived` whose sequence is ahead of
`highestReceived` by more than `BUFFER_SIZE - 32 = 992` (but less than
`0x8000`) closes the channel and returns false, leaving
`highestReceived` and every received-ring slot unchanged. -/
theorem c8_window_skip_closes (st : ReliableState) (seq resendOf : Nat)
    (isResend : Bool)
    (h1 : st.highestReceived < 65536) (h2 : seq < 65536)
    (hgt : BUFFER_SIZE - 32 < (seq + 65536 - st.highestReceived) % 65536)
    (hlt : (seq + 65536 - st.highestReceived) % 65536 < 0x8000) :
    (onSeqReceived st seq isResend resendOf).2 = false ∧
    (onSeqReceived st seq isResend resendOf).1.closed = true ∧
    (onSeqReceived st seq isResend resendOf).1.highestReceived = st.highestReceived ∧
    (∀ j, (onSeqReceived st seq isResend resendOf).1.receivedSeqs j =
      st.receivedSeqs j) := by
  simp only [BUFFER_SIZE_sub32] at hgt
  have hcond : (seq + 65536 - st.highestReceived) % 65536 ≠ 0 ∧
      (seq + 65536 - st.highestReceived) % 65536 < 0x8000 := ⟨by omega, hlt⟩
  have hskip : BUFFER_SIZE - 32 < (seq + 65536 - st.highestReceived) % 65536 := by
    simpa only [BUFFER_SIZE_sub32] using hgt
  simp only [onSeqReceived]
  rw [if_pos hcond, if_pos hskip]
  exact ⟨rfl, rfl, rfl, fun j => rfl⟩

/-- Witness for C8: Scenario E — `highestReceived = 100`, receive
`seq = 1093` (`diff = 993`). -/
theorem c8_witness :
    (stC8.highestReceived < 65536 ∧ (1093 : Nat) < 65536 ∧
     BUFFER_SIZE - 32 < (1093 + 65536 - stC8.highestReceived) % 65536 ∧
     (1093 + 65536 - stC8.highestReceived) % 65536 < 0x8000) ∧
    ((onSeqReceived stC8 1093 false 0).2 = false ∧
     (onSeqReceived stC8 1093 false 0).1.closed = true ∧
     (onSeqReceived stC8 1093 false 0).1.highestReceived = stC8.highestReceived ∧
     (∀ j, (onSeqReceived stC8 1093 false 0).1.receivedSeqs j =
       stC8.receivedSeqs j)) :=
  ⟨⟨by decide, by decide, by decide, by decide⟩,
   c8_window_skip_closes stC8 1093 0 false (by decide) (by decide)
     (by decide) (by decide)⟩

/-- Witness for C6 (amended): `stC6` receiving the duplicate `seq = 100`
(`diff = 0`, slot already marked): the call returns false and changes
nothing. -/
theorem c6_witness :
    (stC6.highestReceived < 65536 ∧ (100 : Nat) < 65536 ∧
     ((100 + 65536 - stC6.highestReceived) % 65536 = 0 ∨
      0x8000 ≤ (100 + 65536 - stC6.highestReceived) % 65536)) ∧
    (stC6.receivedSeqs (100 % 1024) ≠ 0 ∨
        (false = true ∧ stC6.receivedSeqs (0 % 1024) ≠ 0) →
      onSeqReceived stC6 100 false 0 = (stC6, false)) :=
  ⟨⟨by decide, by decide, Or.inl (by decide)⟩,
   (c6_duplicate_suppression stC6 100 0 false (by decide) (by decide)
     (Or.inl (by decide))).1⟩

/-- Bit-level characterization of the `generateAckBits` accumulator. -/
theorem ackBitsAux_testBit (st : ReliableState) (k : Nat) : ∀ j,
    ((ackBitsAux st k).testBit j = true ↔
      (j < k ∧ 1 &&& st.receivedSeqs ((st.highestReceived + 0x10000 - 1 - j) % BUFFER_SIZE) = 1)) := by
  induction k with
  | zero =>
    intro j
    simp [ackBitsAux]
  | succ k ih =>
    intro j
    have hble : 1 &&& st.receivedSeqs ((st.highestReceived + 0x10000 - 1 - k) % BUFFER_SIZE) ≤ 1 :=
      Nat.and_le_left
    rw [ackBitsAux, Nat.testBit_or, Nat.testBit_shiftLeft]
    rcases Nat.lt_trichotomy j k with hj | hj | hj
    · have h1 : (decide (k ≤ j) : Bool) = false := by simp; omega
      rw [h1]
      simp only [Bool.false_and, Bool.or_false]
      rw [ih j]
      constructor
      · exact fun ⟨_, h⟩ => ⟨by omega, h⟩
      · exact fun ⟨_, h⟩ => ⟨hj, h⟩
    · subst hj
      have h0 : (ackBitsAux st j).testBit j = false := by
        cases h : (ackBitsAux st j).testBit j
        · rfl
        · exact absurd ((ih j).1 h).1 (lt_irrefl j)
      have hd : (decide (j ≤ j) : Bool) = true := decide_eq_true (le_refl j)
      rw [h0, hd]
      simp only [Bool.false_or, Bool.true_and, Nat.sub_self]
      rcases Nat.le_iff_lt_or_eq.1 hble with hb | hb
      · have hb0 : 1 &&& st.receivedSeqs ((st.highestReceived + 0x10000 - 1 - j) % BUFFER_SIZE) = 0 := by
          omega
        rw [hb0]
        exact iff_of_false (by simp) (fun h => absurd h.2 (by decide))
      · rw [hb]
        exact iff_of_true (by decide) ⟨Nat.lt_succ_self j, rfl⟩
    · have h2 : (ackBitsAux st k).testBit j = false := by
        cases h : (ackBitsAux st k).testBit j
        · rfl
        · exact absurd ((ih j).1 h).1 (by omega)
      have h3 : (1 &&& st.receivedSeqs ((st.highestReceived + 0x10000 - 1 - k) % BUFFER_SIZE)).testBit
          (j - k) = false := by
        apply Nat.testBit_lt_two_pow
        have : (1 : Nat) ≤ j - k := by omega
        calc 1 &&& st.receivedSeqs ((st.highestReceived + 0x10000 - 1 - k) % BUFFER_SIZE) ≤ 1 := hble
        _ < 2 ^ 1 := by norm_num
        _ ≤ 2 ^ (j - k) := Nat.pow_le_pow_right (by norm_num) this
      rw [h2, h3]
      simp only [Bool.and_false, Bool.or_false]
      constructor
      · intro h; exact absurd h (by simp)
      · intro ⟨h, _⟩; omega

/-- Claim C7: bit `i` of `generateAckBits` equals bit 0 of the
received-ring slot at index `(highestReceived - 1 - i)` taken modulo
`2^16` then modulo `BUFFER_SIZE`; consequently, for any set `S` of
window offsets whose slots are marked accordingly, the generated bits
recover exactly `S`. -/
theorem c7_ack_bits_roundtrip (st : ReliableState) (S : Finset Nat)
    (h1 : st.highestReceived < 65536)
    (hS : ∀ i, i < 32 →
      (1 &&& st.receivedSeqs (((st.highestReceived + 65536 - (1 + i)) % 65536) % BUFFER_SIZE) = 1 ↔
        i ∈ S)) :
    (∀ i, i < 32 → ((generateAckBits st).testBit i = true ↔
      1 &&& st.receivedSeqs (((st.highestReceived + 65536 - (1 + i)) % 65536) % BUFFER_SIZE) = 1)) ∧
    (∀ i, i < 32 → ((generateAckBits st).testBit i = true ↔ i ∈ S)) := by
  have hidx : ∀ i, ((st.highestReceived + 65536 - (1 + i)) % 65536) % BUFFER_SIZE =
      (st.highestReceived + 0x10000 - 1 - i) % BUFFER_SIZE := by
    intro i
    have hdvd : (1024 : Nat) ∣ 65536 := by norm_num
    calc ((st.highestReceived + 65536 - (1 + i)) % 65536) % BUFFER_SIZE
        = (st.highestReceived + 65536 - (1 + i)) % BUFFER_SIZE := by
          show _ % 65536 % 1024 = _ % 1024
          exact Nat.mod_mod_of_dvd _ hdvd
      _ = (st.highestReceived + 0x10000 - 1 - i) % BUFFER_SIZE := by
          congr 1
          omega
  have part1 : ∀ i, i < 32 → ((generateAckBits st).testBit i = true ↔
      1 &&& st.receivedSeqs (((st.highestReceived + 65536 - (1 + i)) % 65536) % BUFFER_SIZE) = 1) := by
    intro i hi
    rw [hidx i]
    rw [generateAckBits, ackBitsAux_testBit st 32 i]
    exact ⟨fun ⟨_, h⟩ => h, fun h => ⟨hi, h⟩⟩
  exact ⟨part1, fun i hi => (part1 i hi).trans (hS i hi)⟩

/-- Witness for C7: `highestReceived = 5`, only sequence 4 received,
`S = {0}` (offset 0 below `highestReceived - 1`). -/
theorem c7_witness :
    (stC7.highestReceived < 65536 ∧
     (∀ i, i < 32 →
       (1 &&& stC7.receivedSeqs (((stC7.highestReceived + 65536 - (1 + i)) % 65536) % BUFFER_SIZE) = 1 ↔
         i ∈ ({0} : Finset Nat)))) ∧
    ((∀ i, i < 32 → ((generateAckBits stC7).testBit i = true ↔
       1 &&& stC7.receivedSeqs (((stC7.highestReceived + 65536 - (1 + i)) % 65536) % BUFFER_SIZE) = 1)) ∧
     (∀ i, i < 32 → ((generateAckBits stC7).testBit i = true ↔ i ∈ ({0} : Finset Nat)))) :=
  ⟨⟨by decide, by decide⟩,
   c7_ack_bits_roundtrip stC7 ({0} : Finset Nat) (by decide) (by decide)⟩

/-- The bit loop with counter `k` equals a left fold of `onAckReceived`
over the set bits below `k`, highest bit first. -/
theorem ackBitsLoop_eq_foldl (now : ℚ) (ack ackBits : Nat) : ∀ (k : Nat) (st : ReliableState),
    ackBitsLoop now ack ackBits st k =
      List.foldl (fun s q => onAckReceived s now q) st
        ((((List.range k).reverse).filter (fun i => ackBits &&& (1 <<< i) != 0)).map
          (fun i => (ack + 65536 - (i + 1)) % 65536)) := by
  intro k
  induction k with
  | zero =>
    intro st
    simp [ackBitsLoop]
  | succ k ih =>
    intro st
    rw [ackBitsLoop]
    rw [List.range_succ, List.reverse_append]
    simp only [List.reverse_cons, List.reverse_nil, List.nil_append, List.singleton_append,
      List.filter_cons]
    by_cases hbit : ackBits &&& (1 <<< k) ≠ 0
    · have hb : (ackBits &&& (1 <<< k) != 0) = true := by
        simpa using hbit
      rw [if_pos hbit]
      simp only [hb, if_true, List.map_cons, List.foldl_cons]
      exact ih _
    · have hb : (ackBits &&& (1 <<< k) != 0) = false := by
        simpa using hbit
      rw [if_neg hbit]
      simp only [hb, Bool.false_eq_true, if_false]
      exact ih _

/-- Claim C9: `processReceivedAcks` with `(sequenceSent - ack) mod 2^16`
greater than 512 returns with no change at all (no sent slot, latency
estimate, or notification changes); otherwise it invokes
`onAckReceived` for each set bit `i` of `ackBits` (sequence
`ack - (i+1)`), in order from `i = 31` down to `i = 0`, and finally for
`ack` itself. -/
theorem c9_ack_too_old_ignored_and_order (st : ReliableState) (now : ℚ)
    (ack ackBits : Nat) (hack : ack < 65536) :
    (512 < (st.sequenceSent + 65536 - ack) % 65536 →
      (∀ j, (processReceivedAcks st now ack ackBits).sentPackets j = st.sentPackets j) ∧
      (processReceivedAcks st now ack ackBits).lag = st.lag ∧
      (processReceivedAcks st now ack ackBits).notifications = st.notifications) ∧
    ((st.sequenceSent + 65536 - ack) % 65536 ≤ 512 →
      processReceivedAcks st now ack ackBits =
        List.foldl (fun s q => onAckReceived s now q) st (ackSequenceOrder ack ackBits)) := by
  constructor
  · intro hgt
    simp only [processReceivedAcks]
    rw [if_pos hgt]
    exact ⟨fun j => rfl, rfl, rfl⟩
  · intro hle
    simp only [processReceivedAcks]
    rw [if_neg (by omega)]
    rw [ackSequenceOrder, List.foldl_append, List.foldl_cons, List.foldl_nil]
    rw [ackBitsLoop_eq_foldl]

/-- Witness for C9 at a fresh channel, `ack = 0`, `ackBits = 5`. -/
theorem c9_witness :
    ((0 : Nat) < 65536) ∧
    ((512 < (freshReliable.sequenceSent + 65536 - 0) % 65536 →
      (∀ j, (processReceivedAcks freshReliable 0 0 5).sentPackets j =
        freshReliable.sentPackets j) ∧
      (processReceivedAcks freshReliable 0 0 5).lag = freshReliable.lag ∧
      (processReceivedAcks freshReliable 0 0 5).notifications = freshReliable.notifications) ∧
    ((freshReliable.sequenceSent + 65536 - 0) % 65536 ≤ 512 →
      processReceivedAcks freshReliable 0 0 5 =
        List.foldl (fun s q => onAckReceived s 0 q) freshReliable (ackSequenceOrder 0 5))) :=
  ⟨by decide, c9_ack_too_old_ignored_and_order freshReliable 0 0 5 (by decide)⟩

theorem reportLatency_sentPackets (st : ReliableState) (x : ℚ) :
    (reportLatency st x).sentPackets = st.sentPackets := by
  rw [reportLatency]
  split <;> rfl

theorem reportLatency_notifications (st : ReliableState) (x : ℚ) :
    (reportLatency st x).notifications = st.notifications := by
  rw [reportLatency]
  split <;> rfl

/-- `onAckReceived` on a slot that is not waiting is the identity. -/
theorem onAckReceived_not_waiting (st : ReliableState) (now : ℚ) (a : Nat)
    (h : (st.sentPackets (a % 1024)).waiting = false) :
    onAckReceived st now a = st := by
  have hB : a % BUFFER_SIZE = a % 1024 := rfl
  simp only [onAckReceived, hB]
  rw [if_neg]
  rw [h]
  simp

/-- `onAckReceived` on a waiting slot with a reportable tag: the tag is
appended to the notification log, the slot stops waiting, and all other
slots are untouched. -/
theorem onAckReceived_spec (st : ReliableState) (now : ℚ) (a : Nat)
    (hw : (st.sentPackets (a % 1024)).waiting = true)
    (ht : (st.sentPackets (a % 1024)).tag ≠ -1) :
    (onAckReceived st now a).notifications =
      st.notifications ++ [(st.sentPackets (a % 1024)).tag] ∧
    (∀ j, j ≠ a % 1024 → (onAckReceived st now a).sentPackets j = st.sentPackets j) ∧
    ((onAckReceived st now a).sentPackets (a % 1024)).waiting = false := by
  have hB : a % BUFFER_SIZE = a % 1024 := rfl
  simp only [onAckReceived, hB]
  rw [if_pos hw, if_pos ht]
  refine ⟨reportLatency_notifications _ _, fun j hj => ?_, ?_⟩
  · rw [reportLatency_sentPackets]
    simp [Function.update_apply, hj]
  · rw [reportLatency_sentPackets]
    simp

/-- `onAckReceived` never sets a waiting flag. -/
theorem onAckReceived_waiting_mono (st : ReliableState) (now : ℚ) (a j : Nat)
    (h : (st.sentPackets j).waiting = false) :
    ((onAckReceived st now a).sentPackets j).waiting = false := by
  have hB : a % BUFFER_SIZE = a % 1024 := rfl
  simp only [onAckReceived, hB]
  by_cases hw : (st.sentPackets (a % 1024)).waiting = true
  · rw [if_pos hw]
    by_cases ht : (st.sentPackets (a % 1024)).tag ≠ -1
    · rw [if_pos ht, reportLatency_sentPackets]
      by_cases hj : j = a % 1024
      · subst hj; simp
      · simp [Function.update_apply, hj, h]
    · rw [if_neg ht, reportLatency_sentPackets]
      by_cases hj : j = a % 1024
      · subst hj; simp
      · simp [Function.update_apply, hj, h]
  · rw [if_neg hw]
    exact h

/-- After `onAckReceived a`, the slot for `a` is never waiting. -/
theorem onAckReceived_clears (st : ReliableState) (now : ℚ) (a : Nat) :
    ((onAckReceived st now a).sentPackets (a % 1024)).waiting = false := by
  have hB : a % BUFFER_SIZE = a % 1024 := rfl
  simp only [onAckReceived, hB]
  by_cases hw : (st.sentPackets (a % 1024)).waiting = true
  · rw [if_pos hw]
    by_cases ht : (st.sentPackets (a % 1024)).tag ≠ -1
    · rw [if_pos ht, reportLatency_sentPackets]; simp
    · rw [if_neg ht, reportLatency_sentPackets]; simp
  · rw [if_neg hw]
    rw [Bool.not_eq_true] at hw
    exact hw

/-- `processAckList` never sets a waiting flag. -/
theorem processAckList_waiting_mono (acks : List (Nat × ℚ)) : ∀ (st : ReliableState) (j : Nat),
    (st.sentPackets j).waiting = false →
    ((processAckList st acks).sentPackets j).waiting = false := by
  induction acks with
  | nil => exact fun st j h => h
  | cons a rest ih =>
    intro st j h
    exact ih _ j (onAckReceived_waiting_mono st a.2 a.1 j h)

/-- Every acknowledged slot ends up not waiting. -/
theorem processAckList_acked_cleared (acks : List (Nat × ℚ)) : ∀ (st : ReliableState) (a : Nat),
    a ∈ acks.map Prod.fst →
    ((processAckList st acks).sentPackets (a % 1024)).waiting = false := by
  induction acks with
  | nil => intro st a h; simp at h
  | cons b rest ih =>
    intro st a h
    simp only [List.map_cons] at h
    rcases List.mem_cons.1 h with hab | har
    · subst hab
      exact processAckList_waiting_mono rest _ _ (onAckReceived_clears st b.2 b.1)
    · exact ih _ a har

/-- Acknowledging distinct waiting sequences with reportable tags
appends exactly their tags, in acknowledgement order. -/
theorem processAckList_notifications (acks : List (Nat × ℚ)) : ∀ (st : ReliableState),
    (∀ a ∈ acks.map Prod.fst,
      (st.sentPackets (a % 1024)).waiting = true ∧ (st.sentPackets (a % 1024)).tag ≠ -1) →
    ((acks.map Prod.fst).map (fun a => a % 1024)).Nodup →
    (processAckList st acks).notifications =
      st.notifications ++ (acks.map Prod.fst).map (fun a => (st.sentPackets (a % 1024)).tag) := by
  induction acks with
  | nil => intro st _ _; simp [processAckList]
  | cons b rest ih =>
    intro st hw hnd
    have hwb := hw b.1 (by simp)
    obtain ⟨hnotif, hframe, _⟩ := onAckReceived_spec st b.2 b.1 hwb.1 hwb.2
    have hmemne : ∀ a ∈ rest.map Prod.fst, ¬ a % 1024 = b.1 % 1024 := by
      intro a ha hc
      simp only [List.map_cons, List.nodup_cons] at hnd
      exact hnd.1 (by
        rw [← hc]
        exact List.mem_map_of_mem _ ha)
    have hstep : processAckList st (b :: rest) = processAckList (onAckReceived st b.2 b.1) rest := rfl
    rw [hstep, ih (onAckReceived st b.2 b.1)
      (fun a ha => by rw [hframe (a % 1024) (hmemne a ha)]; exact hw a (by simp [ha]))
      (by simp only [List.map_cons, List.nodup_cons] at hnd; exact hnd.2)]
    rw [hnotif]
    rw [List.map_congr_left
      (fun a ha => by rw [hframe (a % 1024) (hmemne a ha)])]
    simp [List.append_assoc]

theorem mod1024_add_inj (s0 k1 k2 : Nat) (h1 : k1 < 1024) (h2 : k2 < 1024)
    (h : (s0 + k1) % 1024 = (s0 + k2) % 1024) : k1 = k2 := by
  omega

theorem range_map_getD {α : Type} (l : List α) (d : α) :
    (List.range l.length).map (fun k => l.getD k d) = l := by
  induction l with
  | nil => simp
  | cons a as ih =>
    rw [List.length_cons, List.range_succ_eq_map, List.map_cons, List.map_map]
    have htail : (List.range as.length).map ((fun k => (a :: as).getD k d) ∘ Nat.succ) = as := by
      refine (List.map_congr_left fun k _ => ?_).trans ih
      simp [Function.comp, List.getD_cons_succ]
    show (a :: as).getD 0 d ::
      (List.range as.length).map ((fun k => (a :: as).getD k d) ∘ Nat.succ) = a :: as
    rw [htail, List.getD_cons_zero]

/-- After a run of `sendTagged` calls (at most `BUFFER_SIZE` of them),
the notification log is untouched, the sent ring holds
`waiting = true` and the `k`-th tag at index
`(sequenceSent + k) % BUFFER_SIZE`, and all other slots are
untouched. -/
theorem sendAll_sentPackets (sends : List (Int × ℚ)) : ∀ (st : ReliableState),
    sends.length ≤ 1024 →
    ((sendAll st sends).notifications = st.notifications) ∧
    (∀ j, (∀ k, k < sends.length → j ≠ (st.sequenceSent + k) % 1024) →
      (sendAll st sends).sentPackets j = st.sentPackets j) ∧
    (∀ k, k < sends.length →
      ((sendAll st sends).sentPackets ((st.sequenceSent + k) % 1024)).waiting = true ∧
      ((sendAll st sends).sentPackets ((st.sequenceSent + k) % 1024)).tag =
        (sends.getD k (0, 0)).1) := by
  induction sends with
  | nil =>
    intro st _
    refine ⟨rfl, fun j _ => rfl, fun k hk => absurd hk (by simp)⟩
  | cons p rest ih =>
    intro st hn
    have hstep : sendAll st (p :: rest) = sendAll (sendTagged st p.2 p.1) rest := rfl
    have hseq1 : (sendTagged st p.2 p.1).sequenceSent = (st.sequenceSent + 1) % 65536 := rfl
    have hidx : ∀ k, ((sendTagged st p.2 p.1).sequenceSent + k) % 1024 =
        (st.sequenceSent + (k + 1)) % 1024 := by
      intro k
      rw [hseq1]
      omega
    have hrest := ih (sendTagged st p.2 p.1) (by simpa using Nat.le_of_succ_le hn)
    obtain ⟨hnotif, hframe, hslots⟩ := hrest
    have hsp1 : (sendTagged st p.2 p.1).sentPackets =
        Function.update st.sentPackets (st.sequenceSent % 1024)
          { waiting := true, tag := p.1, timestamp := p.2 } := rfl
    refine ⟨?_, ?_, ?_⟩
    · rw [hstep, hnotif]; rfl
    · intro j hj
      rw [hstep, hframe j (fun k hk => by
        rw [hidx k]
        exact hj (k + 1) (by simpa using Nat.succ_lt_succ hk))]
      rw [hsp1, Function.update_apply, if_neg]
      intro hc
      exact hj 0 (by simp [List.length_cons]) (by simpa using hc)
    · intro k hk
      match k with
      | 0 =>
        have hne : ∀ k', k' < rest.length →
            (st.sequenceSent + 0) % 1024 ≠ ((sendTagged st p.2 p.1).sequenceSent + k') % 1024 := by
          intro k' hk'
          rw [hidx k']
          intro hc
          have := mod1024_add_inj st.sequenceSent 0 (k' + 1) (by omega)
            (by simp at hn; omega) hc
          omega
        rw [hstep, hframe _ hne, hsp1, Function.update_apply, if_pos (by omega)]
        exact ⟨rfl, rfl⟩
      | k + 1 =>
        have hk' : k < rest.length := by simpa using Nat.lt_of_succ_lt_succ hk
        have := hslots k hk'
        rw [hidx k] at this
        rw [hstep]
        exact ⟨this.1, this.2.trans (by simp [List.getD_cons_succ])⟩

/-- `sendTagged` (and hence `sendAll`) never touches the notification
log. -/
theorem sendAll_notifications (sends : List (Int × ℚ)) : ∀ (st : ReliableState),
    (sendAll st sends).notifications = st.notifications := by
  induction sends with
  | nil => exact fun _ => rfl
  | cons p rest ih => exact fun st => (ih (sendTagged st p.2 p.1)).trans rfl

/-- The sent ring after an acknowledged waiting slot: that slot with
`waiting := false`, everything else unchanged. -/
theorem onAckReceived_sentPackets (st : ReliableState) (now : ℚ) (a : Nat)
    (hw : (st.sentPackets (a % 1024)).waiting = true) :
    (onAckReceived st now a).sentPackets =
      Function.update st.sentPackets (a % 1024)
        { waiting := false, tag := (st.sentPackets (a % 1024)).tag,
          timestamp := (st.sentPackets (a % 1024)).timestamp } := by
  have hB : a % BUFFER_SIZE = a % 1024 := rfl
  simp only [onAckReceived, hB]
  rw [if_pos hw]
  by_cases ht : (st.sentPackets (a % 1024)).tag ≠ -1
  · rw [if_pos ht, reportLatency_sentPackets]
  · rw [if_neg ht, reportLatency_sentPackets]

/-- One acknowledgement appends at most one notification. -/
theorem onAckReceived_notifications_length (st : ReliableState) (now : ℚ) (a : Nat) :
    (onAckReceived st now a).notifications.length ≤ st.notifications.length + 1 := by
  have hB : a % BUFFER_SIZE = a % 1024 := rfl
  simp only [onAckReceived, hB]
  by_cases hw : (st.sentPackets (a % 1024)).waiting = true
  · rw [if_pos hw]
    by_cases ht : (st.sentPackets (a % 1024)).tag ≠ -1
    · rw [if_pos ht, reportLatency_notifications]
      show (st.notifications ++ [(st.sentPackets (a % 1024)).tag]).length ≤ _
      simp
    · rw [if_neg ht, reportLatency_notifications]
      show st.notifications.length ≤ _
      omega
  · rw [if_neg hw]
    omega

/-- Clearing a waiting slot (index < 1024) removes exactly one element
from the set of waiting ring slots. -/
theorem waitingCount_update_false (st : ReliableState) (idx : Nat) (v : SentPacketData)
    (hidx : idx < 1024) (hw : (st.sentPackets idx).waiting = true) (hv : v.waiting = false) :
    ((Finset.range 1024).filter
        (fun j => ((Function.update st.sentPackets idx v) j).waiting = true)).card + 1 =
      ((Finset.range 1024).filter (fun j => (st.sentPackets j).waiting = true)).card := by
  have hmem : idx ∈ (Finset.range 1024).filter (fun j => (st.sentPackets j).waiting = true) :=
    Finset.mem_filter.2 ⟨Finset.mem_range.2 hidx, hw⟩
  have hset : (Finset.range 1024).filter
      (fun j => ((Function.update st.sentPackets idx v) j).waiting = true) =
      ((Finset.range 1024).filter (fun j => (st.sentPackets j).waiting = true)).erase idx := by
    ext j
    simp only [Finset.mem_filter, Finset.mem_erase, Finset.mem_range, Function.update_apply]
    by_cases hj : j = idx
    · subst hj
      simp [hv]
    · simp [hj]
  have hpos : 0 < ((Finset.range 1024).filter
      (fun j => (st.sentPackets j).waiting = true)).card :=
    Finset.card_pos.2 ⟨idx, hmem⟩
  rw [hset, Finset.card_erase_of_mem hmem]
  omega

/-- Each acknowledgement step preserves the measure
`notifications.length + waitingCount`: a notification is only ever
bought by permanently clearing one waiting slot. -/
theorem onAckReceived_len_waitingCount (st : ReliableState) (now : ℚ) (a : Nat) :
    (onAckReceived st now a).notifications.length + waitingCount (onAckReceived st now a) ≤
      st.notifications.length + waitingCount st := by
  by_cases hw : (st.sentPackets (a % 1024)).waiting = true
  · have hsp := onAckReceived_sentPackets st now a hw
    have hnl := onAckReceived_notifications_length st now a
    have hcard : waitingCount (onAckReceived st now a) + 1 = waitingCount st := by
      rw [waitingCount, waitingCount, hsp]
      exact waitingCount_update_false st (a % 1024) _ (Nat.mod_lt _ (by norm_num)) hw rfl
    omega
  · rw [onAckReceived_not_waiting st now a (by simpa using hw)]

/-- Over any acknowledgement stream, the number of notifications is
bounded by the initial count of waiting slots — at most 1024. -/
theorem processAckList_len_waitingCount (acks : List (Nat × ℚ)) : ∀ (st : ReliableState),
    (processAckList st acks).notifications.length + waitingCount (processAckList st acks) ≤
      st.notifications.length + waitingCount st := by
  induction acks with
  | nil => exact fun _ => le_rfl
  | cons b rest ih =>
    intro st
    exact le_trans (ih (onAckReceived st b.2 b.1)) (onAckReceived_len_waitingCount st b.2 b.1)

/-- Claim C5 counterexample: 1025 `sendTagged` calls (tags 0..1024,
all ≥ 0) from a fresh channel, one more than the sent ring's capacity,
so send 1024 overwrites the slot of send 0.  Acknowledging every sent
sequence 0..1024 exactly once — the claim's lossless premise — yields
at most 1024 listener notifications (each notification permanently
clears one of the at most 1024 waiting ring slots), so the 1025 tags
cannot each be reported exactly once: the claim, as stated without a
bound on the number of outstanding sends, is false. -/
theorem c5_counterexample :
    sends1025.length = 1025 ∧
    (∀ p ∈ sends1025, 0 ≤ p.1) ∧
    (acks1025.map Prod.fst).Perm
      ((List.range sends1025.length).map (fun k => (freshReliable.sequenceSent + k) % 65536)) ∧
    ¬ (processAckList (sendAll freshReliable sends1025) acks1025).notifications.Perm
      (sends1025.map Prod.fst) := by
  have hlen : sends1025.length = 1025 := by
    rw [sends1025, List.length_map, List.length_range]
  refine ⟨hlen, ?_, ?_, ?_⟩
  · intro p hp
    obtain ⟨k, _, rfl⟩ := List.mem_map.1 hp
    show (0 : Int) ≤ (k : Int)
    exact Int.natCast_nonneg k
  · have hacks : acks1025.map Prod.fst = List.range 1025 := by
      rw [acks1025, List.map_map]
      exact (List.map_congr_left fun k _ => rfl).trans (List.map_id _)
    have htarget : (List.range sends1025.length).map
        (fun k => (freshReliable.sequenceSent + k) % 65536) = List.range 1025 := by
      rw [hlen]
      refine (List.map_congr_left fun k hk => ?_).trans (List.map_id _)
      have hk' : k < 1025 := List.mem_range.1 hk
      show (0 + k) % 65536 = k
      omega
    rw [hacks, htarget]
  · intro hp
    have hl := hp.length_eq
    have hts : (sends1025.map Prod.fst).length = 1025 := by
      rw [sends1025, List.length_map, List.length_map, List.length_range]
    have hbound := processAckList_len_waitingCount acks1025 (sendAll freshReliable sends1025)
    have hn0 : (sendAll freshReliable sends1025).notifications = [] :=
      sendAll_notifications sends1025 freshReliable
    have hW : waitingCount (sendAll freshReliable sends1025) ≤ 1024 :=
      le_trans (Finset.card_filter_le _ _) (by simp)
    have h7 : (processAckList (sendAll freshReliable sends1025) acks1025).notifications.length ≤
        1024 :=
      calc (processAckList (sendAll freshReliable sends1025) acks1025).notifications.length
          ≤ (processAckList (sendAll freshReliable sends1025) acks1025).notifications.length +
            waitingCount (processAckList (sendAll freshReliable sends1025) acks1025) :=
            Nat.le_add_right _ _
        _ ≤ (sendAll freshReliable sends1025).notifications.length +
            waitingCount (sendAll freshReliable sends1025) := hbound
        _ = waitingCount (sendAll freshReliable sends1025) := by
            rw [hn0, List.length_nil, Nat.zero_add]
        _ ≤ 1024 := hW
    rw [hl, hts] at h7
    exact absurd h7 (by decide)

/-- Claim C5 (amended): send a batch of tagged packets — tags ≥ 0 and
at most `BUFFER_SIZE` (1024) sends, so that no sent slot is reused —
then acknowledge every sent sequence exactly once, in any order: the
listeners are notified with exactly the multiset of sent tags; and
acknowledging any of those sequences a second time produces no further
notification, because the slot's waiting flag has been cleared. -/
theorem c5_tags_notified_exactly_once (st0 : ReliableState)
    (sends : List (Int × ℚ)) (acks : List (Nat × ℚ)) (s : Nat) (t : ℚ)
    (hfresh : ∀ j, (st0.sentPackets j).waiting = false)
    (hnotif : st0.notifications = [])
    (hseq : st0.sequenceSent < 65536)
    (hn : sends.length ≤ 1024)
    (htags : ∀ p ∈ sends, 0 ≤ p.1)
    (hperm : (acks.map Prod.fst).Perm
      ((List.range sends.length).map (fun k => (st0.sequenceSent + k) % 65536)))
    (hs : s ∈ acks.map Prod.fst) :
    (processAckList (sendAll st0 sends) acks).notifications.Perm (sends.map Prod.fst) ∧
    (processAckList (sendAll st0 sends) (acks ++ [(s, t)])).notifications =
      (processAckList (sendAll st0 sends) acks).notifications := by
  obtain ⟨hnotif1, _, hslots⟩ := sendAll_sentPackets sends st0 hn
  have hmm : ∀ k, ((st0.sequenceSent + k) % 65536) % 1024 = (st0.sequenceSent + k) % 1024 :=
    fun k => Nat.mod_mod_of_dvd _ (by norm_num)
  have hmem : ∀ a ∈ acks.map Prod.fst, ∃ k, k < sends.length ∧ a = (st0.sequenceSent + k) % 65536 := by
    intro a ha
    have := hperm.mem_iff.1 ha
    obtain ⟨k, hk, hka⟩ := List.mem_map.1 this
    exact ⟨k, List.mem_range.1 hk, hka.symm⟩
  have hwait : ∀ a ∈ acks.map Prod.fst,
      ((sendAll st0 sends).sentPackets (a % 1024)).waiting = true ∧
      ((sendAll st0 sends).sentPackets (a % 1024)).tag ≠ -1 := by
    intro a ha
    obtain ⟨k, hk, hka⟩ := hmem a ha
    have hidx : a % 1024 = (st0.sequenceSent + k) % 1024 := by rw [hka]; exact hmm k
    rw [hidx]
    refine ⟨(hslots k hk).1, ?_⟩
    rw [(hslots k hk).2]
    have hd : sends.getD k (0, 0) ∈ sends := by
      rw [List.getD_eq_getElem _ _ hk]
      exact List.getElem_mem hk
    have := htags _ hd
    omega
  have hnd : ((acks.map Prod.fst).map (fun a => a % 1024)).Nodup := by
    have hp2 : ((acks.map Prod.fst).map (fun a => a % 1024)).Perm
        (((List.range sends.length).map (fun k => (st0.sequenceSent + k) % 65536)).map
          (fun a => a % 1024)) := hperm.map _
    have heq : ((List.range sends.length).map (fun k => (st0.sequenceSent + k) % 65536)).map
        (fun a => a % 1024) =
        (List.range sends.length).map (fun k => (st0.sequenceSent + k) % 1024) := by
      rw [List.map_map]
      exact List.map_congr_left fun k _ => hmm k
    rw [hp2.nodup_iff, heq]
    refine List.Nodup.map_on ?_ (List.nodup_range _)
    intro x hx y hy hxy
    exact mod1024_add_inj st0.sequenceSent x y
      (lt_of_lt_of_le (List.mem_range.1 hx) hn) (lt_of_lt_of_le (List.mem_range.1 hy) hn) hxy
  have hmain := processAckList_notifications acks (sendAll st0 sends) hwait hnd
  have htagmap : (acks.map Prod.fst).map
      (fun a => ((sendAll st0 sends).sentPackets (a % 1024)).tag) |>.Perm (sends.map Prod.fst) := by
    have hp3 := hperm.map (fun a => ((sendAll st0 sends).sentPackets (a % 1024)).tag)
    refine hp3.trans ?_
    have heq2 : ((List.range sends.length).map (fun k => (st0.sequenceSent + k) % 65536)).map
        (fun a => ((sendAll st0 sends).sentPackets (a % 1024)).tag) =
        (List.range sends.length).map (fun k => (sends.getD k (0, 0)).1) := by
      rw [List.map_map]
      refine List.map_congr_left fun k hk => ?_
      show ((sendAll st0 sends).sentPackets (((st0.sequenceSent + k) % 65536) % 1024)).tag = _
      rw [hmm k]
      exact (hslots k (List.mem_range.1 hk)).2
    rw [heq2]
    have heq3 : (List.range sends.length).map (fun k => (sends.getD k (0, 0)).1) =
        sends.map Prod.fst := by
      have h4 : (List.range (sends.map Prod.fst).length).map
          (fun k => (sends.map Prod.fst).getD k 0) = sends.map Prod.fst :=
        range_map_getD (sends.map Prod.fst) 0
      rw [List.length_map] at h4
      rw [← h4]
      refine List.map_congr_left fun k hk => ?_
      have hklt : k < sends.length := List.mem_range.1 hk
      rw [List.getD_eq_getElem _ _ hklt, List.getD_eq_getElem _ _ (by simpa using hklt),
        List.getElem_map]
    rw [heq3]
  constructor
  · rw [hmain, hnotif1, hnotif, List.nil_append]
    exact htagmap
  · have hsplit : processAckList (sendAll st0 sends) (acks ++ [(s, t)]) =
        onAckReceived (processAckList (sendAll st0 sends) acks) t s := by
      rw [processAckList, List.foldl_append]
      rfl
    rw [hsplit, onAckReceived_not_waiting _ t s
      (processAckList_acked_cleared acks (sendAll st0 sends) s hs)]

/-- Witness for C5: two sends tagged 10 and 11 from a fresh channel,
acknowledged in reverse order; the log is a permutation of [10, 11],
and re-acknowledging sequence 0 adds nothing. -/
theorem c5_witness :
    ((∀ j, (freshReliable.sentPackets j).waiting = false) ∧
     freshReliable.notifications = [] ∧
     freshReliable.sequenceSent < 65536 ∧
     ([((10 : Int), (0 : ℚ)), (11, 0)] : List (Int × ℚ)).length ≤ 1024 ∧
     (∀ p ∈ ([((10 : Int), (0 : ℚ)), (11, 0)] : List (Int × ℚ)), 0 ≤ p.1) ∧
     (([((1 : Nat), (0 : ℚ)), (0, 0)] : List (Nat × ℚ)).map Prod.fst).Perm
       ((List.range ([((10 : Int), (0 : ℚ)), (11, 0)] : List (Int × ℚ)).length).map
         (fun k => (freshReliable.sequenceSent + k) % 65536)) ∧
     0 ∈ (([((1 : Nat), (0 : ℚ)), (0, 0)] : List (Nat × ℚ)).map Prod.fst)) ∧
    ((processAckList (sendAll freshReliable [((10 : Int), (0 : ℚ)), (11, 0)])
        [((1 : Nat), (0 : ℚ)), (0, 0)]).notifications.Perm
      (([((10 : Int), (0 : ℚ)), (11, 0)] : List (Int × ℚ)).map Prod.fst) ∧
     (processAckList (sendAll freshReliable [((10 : Int), (0 : ℚ)), (11, 0)])
        ([((1 : Nat), (0 : ℚ)), (0, 0)] ++ [(0, 0)])).notifications =
      (processAckList (sendAll freshReliable [((10 : Int), (0 : ℚ)), (11, 0)])
        [((1 : Nat), (0 : ℚ)), (0, 0)]).notifications) :=
  ⟨⟨fun _ => rfl, rfl, by decide, by decide, by decide, by decide, by decide⟩,
   c5_tags_notified_exactly_once freshReliable [((10 : Int), (0 : ℚ)), (11, 0)]
     [((1 : Nat), (0 : ℚ)), (0, 0)] 0 0 (fun _ => rfl) rfl (by decide) (by decide)
     (by decide) (by decide) (by decide)⟩

end HalleyNet

